import Mathlib

/-!
Verification of the core of the Twitch-Tools repository: a shallow embedding in
Lean 4 of the segment-transport client (src/gui/m3u8_downloader.py) and of the
stream manager (src/utils/stream_manager.py), together with theorems settling
the specification's claims about them.

Conventions of the embedding:
* Python floats holding segment durations / time offsets become `ℚ` (all the
  arithmetic performed on them here is exact on the inputs of interest).
* Python strings become `List Char` where character-level structure matters
  (suffix tests, replacement) and `String` elsewhere.
* External collaborators (the `float` builtin, `urljoin`, the ffmpeg exit
  code, which segment fetches succeed) are abstracted as parameters.
* Emitted f-string messages become an inductive `Msg` carrying exactly the
  data interpolated into the corresponding format string.
-/

namespace TwitchTools

/-! ## Segment trimming (FastM3U8DownloadThread.trim_segments, m3u8_downloader.py 765-784)

The Python body is two `for`-loops with `break` over `enumerate(segment_durations)`:

    current_time = 0; start_idx = 0; end_idx = len(segment_urls)
    for i, dur in enumerate(segment_durations):
        if current_time + dur > start_sec: start_idx = i; break
        current_time += dur
    current_time = 0
    for i, dur in enumerate(segment_durations):
        if current_time >= end_sec: end_idx = i; break
        current_time += dur
    return segment_urls[start_idx:end_idx], segment_durations[start_idx:end_idx]

Each loop is embedded as a recursion returning `some i` when it breaks at
index `i` and `none` when it runs off the end (in which case the initial value
of the corresponding variable survives: 0 for `start_idx`, the list length for
`end_idx`). -/

/-- First loop of `trim_segments`: break at the first index whose cumulative
end exceeds `start_sec`. -/
def trimStartIdxAux (start_sec : ℚ) : List ℚ → ℚ → ℕ → Option ℕ
  | [], _, _ => none
  | d :: rest, cur, i =>
      if cur + d > start_sec then some i else trimStartIdxAux start_sec rest (cur + d) (i + 1)

/-- Second loop of `trim_segments`: break at the first index whose cumulative
start has reached `end_sec`. -/
def trimEndIdxAux (end_sec : ℚ) : List ℚ → ℚ → ℕ → Option ℕ
  | [], _, _ => none
  | d :: rest, cur, i =>
      if cur ≥ end_sec then some i else trimEndIdxAux end_sec rest (cur + d) (i + 1)

/-- `FastM3U8DownloadThread.trim_segments`: slice the segment lists to the
requested time window at whole-segment granularity. -/
def trim_segments (segment_urls : List String) (segment_durations : List ℚ)
    (start_sec end_sec : ℚ) : List String × List ℚ :=
  let start_idx := (trimStartIdxAux start_sec segment_durations 0 0).getD 0
  let end_idx := (trimEndIdxAux end_sec segment_durations 0 0).getD segment_urls.length
  ((segment_urls.drop start_idx).take (end_idx - start_idx),
   (segment_durations.drop start_idx).take (end_idx - start_idx))

/-! ## Segment download job model (FastM3U8DownloadThread, m3u8_downloader.py 624-1019)

The per-job mutable state (`completed_segments`, `failed_segments`,
`downloaded_segments`, `total_segments`) and the control flow of `run` from the
post-first-pass abort check (line 910) to the terminal emission (line 977).
Which fetches succeed is abstracted as `ok : ℕ → Bool` (a segment index either
always succeeds or always fails on fetch), and the ffmpeg concat exit code as
`ffmpegOk`. -/

/-- Python `f"{i:06d}"`-style zero padding. -/
def zfill (w : ℕ) (s : String) : String :=
  String.mk (List.replicate (w - s.length) '0') ++ s

/-- Local path of a fetched segment: `f"segment_{segment_index:06d}.ts"`
(m3u8_downloader.py line 800). -/
def segPath (i : ℕ) : String :=
  "segment_" ++ zfill 6 (toString i) ++ ".ts"

/-- The job-scoped mutable state of `FastM3U8DownloadThread`. -/
structure JobState where
  total_segments : ℕ
  completed_segments : ℕ → Option String
  failed_segments : Finset ℕ
  downloaded_segments : ℕ

/-- Effect of a successful `download_segment(url, i, temp_dir)` call on the
lock-protected state (lines 824-826). -/
def download_segment_ok (st : JobState) (i : ℕ) : JobState :=
  { st with
    completed_segments := Function.update st.completed_segments i (some (segPath i)),
    downloaded_segments := st.downloaded_segments + 1 }

/-- Effect of a failed `download_segment` call: the index joins
`failed_segments` (lines 846-847). -/
def download_segment_fail (st : JobState) (i : ℕ) : JobState :=
  { st with failed_segments := insert i st.failed_segments }

/-- One segment fetch, dispatching on the abstracted outcome `ok i`. -/
def processSegment (ok : ℕ → Bool) (st : JobState) (i : ℕ) : JobState :=
  if ok i then download_segment_ok st i else download_segment_fail st i

/-- Fresh job state before any segment is fetched. -/
def initState (total : ℕ) : JobState :=
  { total_segments := total, completed_segments := fun _ => none,
    failed_segments := ∅, downloaded_segments := 0 }

/-- First parallel pass (lines 884-908): every index in `range total` is
fetched once; the per-index effects commute, so the pass is modelled as a fold
in index order (order-independence of the resulting concat manifest is proved
separately for claim C5). -/
def initialPass (ok : ℕ → Bool) (total : ℕ) : JobState :=
  (List.range total).foldl (processSegment ok) (initState total)

/-- One retry round (lines 923-948): copy the failed set, clear it, re-fetch
every copied index. -/
def retryRound (ok : ℕ → Bool) (st : JobState) : JobState :=
  (st.failed_segments.sort (· ≤ ·)).foldl (processSegment ok)
    { st with failed_segments := ∅ }

/-- The retry while-loop (lines 919-948): up to `max_retries = 3` rounds while
segments remain failed and neither stop nor abort is set. -/
def retryLoop (ok : ℕ → Bool) (should_stop should_abort : Bool) :
    ℕ → JobState → JobState
  | 0, st => st
  | n + 1, st =>
      if st.failed_segments ≠ ∅ ∧ should_stop = false ∧ should_abort = false then
        retryLoop ok should_stop should_abort n (retryRound ok st)
      else st

/-- The concat manifest written by `_concatenate_segments` (lines 989-1002):
`for i in range(total): if i in completed: append completed[i]`. -/
def concatFilesOf (total : ℕ) (completed : ℕ → Option String) : List String :=
  (List.range total).filterMap completed

/-- Concat manifest of a job state. -/
def concatFiles (st : JobState) : List String :=
  concatFilesOf st.total_segments st.completed_segments

/-- The `completed_segments` map as built by the workers: each completion
event `(segment_index, segment_path)` performs
`self.completed_segments[segment_index] = segment_path` under the job lock
(line 825), in completion order. -/
def recordCompletion (m : ℕ → Option String) (e : ℕ × String) : ℕ → Option String :=
  Function.update m e.1 (some e.2)

def buildCompleted (events : List (ℕ × String)) : ℕ → Option String :=
  events.foldl recordCompletion (fun _ => none)

/-- Success of `_concatenate_segments`: false when no segment completed
(line 994), otherwise the external tool's exit status. -/
def concatenate_segments (st : JobState) (ffmpegOk : Bool) : Bool :=
  if concatFiles st = [] then false else ffmpegOk

/-- Terminal messages of the job, one constructor per emitted format string of
`run`, carrying exactly the interpolated counts. -/
inductive Msg where
  /-- "No segments found in M3U8 file" (line 860) -/
  | noSegmentsFound
  /-- "No segments in specified time range" (line 872) -/
  | noSegmentsInRange
  /-- "Download aborted by user" (line 913) -/
  | abortedByUser
  /-- "Download completed with {k} failed segments. ..." (line 960) -/
  | completedWithFailures (k : ℕ)
  /-- "Download completed successfully! ..." (line 962) -/
  | completedSuccess
  /-- "Failed to concatenate segments" (line 968) -/
  | concatFailed
  /-- "Partial download saved. Downloaded {d}/{t} segments. ..." (line 975) -/
  | partialSaved (downloaded total : ℕ)
  deriving DecidableEq

/-- Observable terminal outcome of a job: the `download_finished(success, msg)`
emission, whether an output file was produced, whether the temp segment
directory was removed, and the concat manifest handed to the external tool. -/
structure Outcome where
  success : Bool
  msg : Msg
  outputProduced : Bool
  tempDirRemoved : Bool
  concatList : List String
  deriving DecidableEq

/-- Lines 910-977 of `run`: abort check, retry loop, then either the normal
concatenation path or the stop (partial-save) path. `_cleanup_temp_files` is
called on every one of these paths, so `tempDirRemoved` is true throughout;
on the abort path `_concatenate_segments` is never invoked, so no output file
exists and the manifest is empty. -/
def finishJob (ok : ℕ → Bool) (should_stop should_abort : Bool) (ffmpegOk : Bool)
    (st : JobState) : Outcome :=
  if should_abort then
    { success := false, msg := .abortedByUser, outputProduced := false,
      tempDirRemoved := true, concatList := [] }
  else
    let st := retryLoop ok should_stop should_abort 3 st
    if should_stop = false ∧ should_abort = false then
      if concatenate_segments st ffmpegOk then
        { success := true,
          msg := if st.failed_segments ≠ ∅ then
              .completedWithFailures st.failed_segments.card
            else .completedSuccess,
          outputProduced := true, tempDirRemoved := true,
          concatList := concatFiles st }
      else
        { success := false, msg := .concatFailed, outputProduced := false,
          tempDirRemoved := true, concatList := concatFiles st }
    else
      { success := true,
        msg := .partialSaved st.downloaded_segments st.total_segments,
        outputProduced := concatenate_segments st ffmpegOk,
        tempDirRemoved := true, concatList := concatFiles st }

/-- Full `run` (lines 852-977) for a job on which neither stop nor abort is
ever requested: parse result `(urls, durs)` given, optional trim window
applied exactly as at lines 863-867 (Python truthiness of `self.duration`:
`None` or `0` falls back to `sum(segment_durations)`), zero-segment checks,
first pass, then `finishJob`. -/
def runJob (urls : List String) (durs : List ℚ)
    (start_time duration : Option ℚ) (ok : ℕ → Bool) (ffmpegOk : Bool) : Outcome :=
  if urls = [] then
    { success := false, msg := .noSegmentsFound, outputProduced := false,
      tempDirRemoved := true, concatList := [] }
  else
    let p := match start_time with
      | some s =>
          let end_time := s + (match duration with
            | some d => if d ≠ 0 then d else durs.sum
            | none => durs.sum)
          trim_segments urls durs s end_time
      | none => (urls, durs)
    let total := p.1.length
    if total = 0 then
      { success := false, msg := .noSegmentsInRange, outputProduced := false,
        tempDirRemoved := true, concatList := [] }
    else
      finishJob ok false false ffmpegOk (initialPass ok total)

/-! ## URL normalization (FastM3U8DownloadThread.transform_url, m3u8_downloader.py 710-722)

    if url.endswith('-unmuted.ts'):
        transformed_url = url.replace('-unmuted.ts', '-muted.ts')
        ...
        return transformed_url
    return url

Python `str.replace` substitutes every non-overlapping occurrence scanning
left to right; `replaceUnmuted` embeds exactly that scan for the fixed
pattern. URLs are `List Char`. -/

/-- The pattern `'-unmuted.ts'`. -/
def unmutedSuffix : List Char := "-unmuted.ts".toList

/-- The replacement `'-muted.ts'`. -/
def mutedSuffix : List Char := "-muted.ts".toList

/-- Left-to-right non-overlapping replacement of `unmutedSuffix` by
`mutedSuffix`, the semantics of `url.replace('-unmuted.ts', '-muted.ts')`.
At a match the scan skips the 11 matched characters (`rest.drop 10` after
consuming `c`). -/
def replaceUnmuted : List Char → List Char
  | [] => []
  | c :: rest =>
      if unmutedSuffix <+: (c :: rest) then
        mutedSuffix ++ replaceUnmuted (rest.drop 10)
      else
        c :: replaceUnmuted rest
termination_by s => s.length
decreasing_by
  · simp only [List.length_cons, List.length_drop]
    omega
  · simp only [List.length_cons]
    omega

/-- `FastM3U8DownloadThread.transform_url`. -/
def transform_url (url : List Char) : List Char :=
  if unmutedSuffix <:+ url then replaceUnmuted url else url

/-! ## M3U8 parsing (FastM3U8DownloadThread.parse_m3u8, m3u8_downloader.py 724-763)

The line loop only; manifest retrieval (HTTP/file) and `urljoin` are external,
so the base-url join is abstracted as `joinUrl` and the `float` builtin as
`pyFloat` (returning `none` where Python `float(...)` raises). -/

/-- Python `str.strip` whitespace set. -/
def pyWhitespace (c : Char) : Bool :=
  c == ' ' || c == '\t' || c == '\n' || c == '\r' || c == '\x0b' || c == '\x0c'

/-- Python `line.strip()`. -/
def pyStrip (l : List Char) : List Char :=
  ((l.dropWhile pyWhitespace).reverse.dropWhile pyWhitespace).reverse

/-- Python `str.split(sep)` for a one-character separator (no maxsplit):
always returns at least one piece. -/
def splitOnChar (sep : Char) : List Char → List (List Char)
  | [] => [[]]
  | c :: rest =>
      match splitOnChar sep rest with
      | [] => [[c]]
      | h :: t => if c == sep then [] :: h :: t else (c :: h) :: t

/-- `float(line.split(":")[1].split(",")[0])` guarded by `try/except`
(lines 744-747): `none` when the indexing or the float conversion fails. -/
def extinfDuration (pyFloat : List Char → Option ℚ) (line : List Char) : Option ℚ :=
  match splitOnChar ':' line with
  | _ :: second :: _ =>
      match splitOnChar ',' second with
      | piece :: _ => pyFloat piece
      | [] => none
  | _ => none

/-- The tag `"#EXTINF:"`. -/
def extinfTag : List Char := "#EXTINF:".toList

/-- Accumulator of the parse loop: the two output lists plus the `duration`
local variable (`None` initially and again after every segment line). -/
structure ParseAcc where
  segment_urls : List (List Char)
  segment_durations : List ℚ
  duration : Option ℚ

/-- One iteration of the `for line in lines` loop of `parse_m3u8`
(lines 741-757). -/
def parseLine (pyFloat : List Char → Option ℚ) (joinUrl : List Char → List Char)
    (acc : ParseAcc) (raw : List Char) : ParseAcc :=
  if extinfTag <+: pyStrip raw then
    { acc with duration := extinfDuration pyFloat (pyStrip raw) }
  else if pyStrip raw ≠ [] ∧ ¬(['#'] <+: pyStrip raw) then
    { segment_urls := acc.segment_urls ++
        [transform_url (if ("http".toList) <+: pyStrip raw then pyStrip raw
          else joinUrl (pyStrip raw))],
      segment_durations := acc.segment_durations ++ [acc.duration.getD 0],
      duration := none }
  else acc

/-- `FastM3U8DownloadThread.parse_m3u8` restricted to its line loop: returns
`(segment_urls, segment_durations)`. -/
def parse_m3u8 (pyFloat : List Char → Option ℚ) (joinUrl : List Char → List Char)
    (lines : List (List Char)) : List (List Char) × List ℚ :=
  let acc := lines.foldl (parseLine pyFloat joinUrl) ⟨[], [], none⟩
  (acc.segment_urls, acc.segment_durations)

/-- A raw line that (stripped) carries an `#EXTINF:` tag. -/
def isExtinf (raw : List Char) : Bool :=
  decide (extinfTag <+: pyStrip raw)

/-- A raw line that (stripped) is a segment line: nonempty and not a comment. -/
def isSegment (raw : List Char) : Bool :=
  decide (pyStrip raw ≠ [] ∧ ¬(['#'] <+: pyStrip raw))

/-- The pending duration visible after a prefix of the manifest: determined by
the nearest preceding relevant line — the value of an `#EXTINF:` line (none
when unparsable), cleared by a segment line. -/
def specPending (pyFloat : List Char → Option ℚ) (pre : List (List Char)) : Option ℚ :=
  match pre.reverse.find? (fun raw => isExtinf raw || isSegment raw) with
  | some raw => if isExtinf raw then extinfDuration pyFloat (pyStrip raw) else none
  | none => none

/-- Positions of the segment lines of a manifest. -/
def segPositions (lines : List (List Char)) : List ℕ :=
  (List.range lines.length).filter (fun j => isSegment (lines.getD j []))

/-- The stored URL produced by the segment line at position `j`: joined with
the base URL unless absolute, then normalized by `transform_url`. -/
def segUrlAt (joinUrl : List Char → List Char) (lines : List (List Char)) (j : ℕ) :
    List Char :=
  transform_url (if ("http".toList) <+: pyStrip (lines.getD j []) then pyStrip (lines.getD j [])
    else joinUrl (pyStrip (lines.getD j [])))

/-! ## Channel liveness tracker (StreamManager._handle_status_update, stream_manager.py 80-110) -/

/-- `self.OFFLINE_CONFIRMATIONS_NEEDED = 3` (stream_manager.py line 28). -/
def OFFLINE_CONFIRMATIONS_NEEDED : ℕ := 3

/-- The `StreamManager` state read and written by `_handle_status_update`:
`last_known_status.get(name, False)`, `offline_confirmations.get(name, 0)`,
and membership of `name` in `active_downloads` / `active_clips` (which the
handler never mutates). -/
structure TrackerState where
  last_known_status : String → Bool
  offline_confirmations : String → ℕ
  active_downloads : String → Bool
  active_clips : String → Bool

/-- `StreamManager._handle_status_update`: returns the new state and the list
of `status_updated` emissions `(streamer_name, is_live)`. -/
def handle_status_update (s : TrackerState) (streamer_name : String)
    (is_live : Bool) : TrackerState × List (String × Bool) :=
  let last_status := s.last_known_status streamer_name
  if is_live then
    ({ s with
        offline_confirmations := Function.update s.offline_confirmations streamer_name 0,
        last_known_status := Function.update s.last_known_status streamer_name true },
     [(streamer_name, true)])
  else
    if last_status && (s.active_downloads streamer_name || s.active_clips streamer_name) then
      let confirmations := s.offline_confirmations streamer_name + 1
      let s :=
        { s with
            offline_confirmations :=
              Function.update s.offline_confirmations streamer_name confirmations }
      if confirmations ≥ OFFLINE_CONFIRMATIONS_NEEDED then
        ({ s with
            last_known_status := Function.update s.last_known_status streamer_name false,
            offline_confirmations :=
              Function.update s.offline_confirmations streamer_name 0 },
         [(streamer_name, false)])
      else
        (s, [])
    else
      ({ s with
          last_known_status := Function.update s.last_known_status streamer_name false,
          offline_confirmations :=
            Function.update s.offline_confirmations streamer_name 0 },
       [(streamer_name, false)])

/-- Process `n` consecutive offline probe results through the handler,
collecting all emissions. -/
def processOfflines (streamer_name : String) : ℕ → TrackerState →
    TrackerState × List (String × Bool)
  | 0, s => (s, [])
  | n + 1, s =>
      let r := handle_status_update s streamer_name false
      let r' := processOfflines streamer_name n r.1
      (r'.1, r.2 ++ r'.2)

/-! ## Rolling clip buffer eviction (StreamManager._clip_recording_loop, stream_manager.py 357-370) -/

/-- `SEGMENT_DURATION = 10` (stream_manager.py line 18). -/
def SEGMENT_DURATION : ℕ := 10

/-- `ROLLING_CLIP_SECONDS = 180` (stream_manager.py line 19). -/
def ROLLING_CLIP_SECONDS : ℕ := 180

/-- `max_segments = self.ROLLING_CLIP_SECONDS // self.SEGMENT_DURATION`
(line 292). -/
def max_segments : ℕ := ROLLING_CLIP_SECONDS / SEGMENT_DURATION

/-- One eviction scan (lines 363-370): sort the globbed segment files by
filename-embedded sequence number; when more than `max_segments` are present,
delete all but the newest `max_segments` (`seg_files[:-max_segments]`).
Returns `(deleted, retained)`. -/
def evictScan (seg_files : List ℕ) : List ℕ × List ℕ :=
  if (seg_files.mergeSort).length > max_segments then
    ((seg_files.mergeSort).take ((seg_files.mergeSort).length - max_segments),
     (seg_files.mergeSort).drop ((seg_files.mergeSort).length - max_segments))
  else ([], seg_files.mergeSort)

/-! ## Download lifecycle supervisor (StreamManager.start_download / stop_download, stream_manager.py 116-253) -/

/-- One `active_downloads` entry (lines 158-163). -/
structure DownloadSession where
  process : ℕ
  output_file : String
  start_time : ℕ
  filename : String

/-- `StreamManager.start_download` effect on the `active_downloads` map: early
return when an entry exists (lines 117-118), otherwise insert the freshly
built session (process spawn, path resolution and filename generation are
external and enter as `new_session`). -/
def start_download (active_downloads : String → Option DownloadSession)
    (streamer_name : String) (new_session : DownloadSession) :
    String → Option DownloadSession :=
  if (active_downloads streamer_name).isSome then active_downloads
  else Function.update active_downloads streamer_name (some new_session)

/-- `StreamManager.stop_download` effect on the map: terminate the process and
delete the entry when present (lines 243-253), otherwise do nothing. -/
def stop_download (active_downloads : String → Option DownloadSession)
    (streamer_name : String) : String → Option DownloadSession :=
  if (active_downloads streamer_name).isSome then
    Function.update active_downloads streamer_name none
  else active_downloads

/-! ## Theorems -/

attribute [ext] JobState

/-- C9: For every channel, calling `start_download` while a session for that
channel already exists is a no-op leaving the map (hence the existing
session's process handle, output file, start time and filename) unchanged;
calling `stop_download` with no session is a no-op; both operations are
idempotent under repetition. -/
theorem lifecycle_idempotent
    (active_downloads : String → Option DownloadSession) (streamer_name : String)
    (s₁ s₂ : DownloadSession) :
    ((active_downloads streamer_name).isSome →
      start_download active_downloads streamer_name s₁ = active_downloads) ∧
    (active_downloads streamer_name = none →
      stop_download active_downloads streamer_name = active_downloads) ∧
    start_download (start_download active_downloads streamer_name s₁) streamer_name s₂ =
      start_download active_downloads streamer_name s₁ ∧
    stop_download (stop_download active_downloads streamer_name) streamer_name =
      stop_download active_downloads streamer_name := by
  refine ⟨?_, ?_, ?_, ?_⟩
  · intro h
    simp [start_download, h]
  · intro h
    simp [stop_download, h]
  · by_cases h : (active_downloads streamer_name).isSome
    · simp [start_download, h]
    · simp [start_download, h, Function.update_same]
  · by_cases h : (active_downloads streamer_name).isSome
    · simp [stop_download, h, Function.update_same]
    · simp [stop_download, h]

/-- Witness for C9 at a concrete map holding one session. -/
theorem lifecycle_idempotent_witness :
    start_download
        (Function.update (fun _ => none) "chan" (some ⟨1, "out.mp4", 0, "out"⟩)) "chan"
        ⟨2, "other.mp4", 5, "other"⟩ =
      Function.update (fun _ => none) "chan" (some ⟨1, "out.mp4", 0, "out"⟩) ∧
    stop_download (fun _ => none) "chan" = (fun _ => none) := by
  constructor
  · exact (lifecycle_idempotent _ "chan" ⟨2, "other.mp4", 5, "other"⟩
      ⟨2, "other.mp4", 5, "other"⟩).1 (by simp)
  · exact (lifecycle_idempotent (fun _ => none) "chan" ⟨1, "out.mp4", 0, "out"⟩
      ⟨1, "out.mp4", 0, "out"⟩).2.1 rfl

/-- C8: After an eviction scan, at most
`ROLLING_CLIP_SECONDS / SEGMENT_DURATION` (= 18) segment files are retained;
deleted ++ retained is the sorted file list (nothing else is touched); every
deleted file is older (lower sequence number) than every retained file; and a
newest file is never deleted. -/
theorem evictScan_spec (seg_files : List ℕ) :
    (evictScan seg_files).2.length ≤ ROLLING_CLIP_SECONDS / SEGMENT_DURATION ∧
    (evictScan seg_files).1 ++ (evictScan seg_files).2 = (seg_files.mergeSort) ∧
    (∀ d ∈ (evictScan seg_files).1, ∀ r ∈ (evictScan seg_files).2, d ≤ r) ∧
    (∀ m ∈ seg_files, (∀ x ∈ seg_files, x ≤ m) → m ∈ (evictScan seg_files).2) := by
  have hsorted : List.Sorted (· ≤ ·) (seg_files.mergeSort) :=
    List.sorted_mergeSort' seg_files
  have hperm : List.Perm (seg_files.mergeSort) seg_files := List.mergeSort_perm seg_files _
  by_cases h : (seg_files.mergeSort).length > max_segments
  · have hscan : evictScan seg_files =
        ((seg_files.mergeSort).take ((seg_files.mergeSort).length - max_segments),
         (seg_files.mergeSort).drop ((seg_files.mergeSort).length - max_segments)) := by
      simp only [evictScan]
      rw [if_pos h]
    have hsplit : (seg_files.mergeSort).take ((seg_files.mergeSort).length - max_segments) ++
        (seg_files.mergeSort).drop ((seg_files.mergeSort).length - max_segments) =
        seg_files.mergeSort := List.take_append_drop _ _
    have hcross := (List.pairwise_append.mp (by rw [hsplit]; exact hsorted)).2.2
    have hretlen : ((seg_files.mergeSort).drop
        ((seg_files.mergeSort).length - max_segments)).length = max_segments := by
      simp only [List.length_drop]
      omega
    refine ⟨?_, ?_, ?_, ?_⟩
    · rw [hscan]
      simpa [max_segments] using hretlen.le
    · rw [hscan, hsplit]
    · rw [hscan]
      exact hcross
    · intro m hm hmax
      rw [hscan]
      have hmem : m ∈ (seg_files.mergeSort) := hperm.symm.subset hm
      rcases List.mem_append.mp (by rw [hsplit]; exact hmem) with hdel | hret
      · have hne : ((seg_files.mergeSort).drop
            ((seg_files.mergeSort).length - max_segments)) ≠ [] := by
          intro hnil
          rw [hnil] at hretlen
          simp [max_segments, ROLLING_CLIP_SECONDS, SEGMENT_DURATION] at hretlen
        obtain ⟨r, hr⟩ := List.exists_mem_of_ne_nil _ hne
        have h1 : m ≤ r := hcross m hdel r hr
        have h2 : r ≤ m := hmax r (hperm.subset (by rw [← hsplit]; exact List.mem_append_right _ hr))
        have : m = r := le_antisymm h1 h2
        simpa [this] using hr
      · exact hret
  · have hscan : evictScan seg_files = ([], seg_files.mergeSort) := by
      simp only [evictScan]
      rw [if_neg h]
    refine ⟨?_, ?_, ?_, ?_⟩
    · rw [hscan]
      simpa [max_segments] using Nat.le_of_not_lt h
    · rw [hscan]
      rfl
    · rw [hscan]
      intro d hd
      simp at hd
    · intro m hm _
      rw [hscan]
      exact hperm.symm.subset hm

/-- Witness for C8: a directory of 20 files, sequence numbers 0..19. -/
theorem evictScan_spec_witness :
    (evictScan (List.range 20)).2.length ≤ ROLLING_CLIP_SECONDS / SEGMENT_DURATION ∧
    19 ∈ (evictScan (List.range 20)).2 := by
  have h := evictScan_spec (List.range 20)
  exact ⟨h.1, h.2.2.2 19 (by decide) (by decide)⟩

/-- An offline probe result for a channel that is last-known-live, has an
active session, and has not yet reached the confirmation threshold: the
counter is incremented and nothing is emitted. -/
theorem handle_offline_noemit (s : TrackerState) (streamer_name : String)
    (hlive : s.last_known_status streamer_name = true)
    (hactive : (s.active_downloads streamer_name || s.active_clips streamer_name) = true)
    (hlt : s.offline_confirmations streamer_name + 1 < OFFLINE_CONFIRMATIONS_NEEDED) :
    handle_status_update s streamer_name false =
      ({ s with
          offline_confirmations := Function.update s.offline_confirmations streamer_name
            (s.offline_confirmations streamer_name + 1) }, []) := by
  simp only [handle_status_update, hlive, hactive, Bool.false_eq_true, if_false, if_true,
    Bool.true_and]
  rw [if_neg (by omega)]

/-- An offline probe result that reaches the confirmation threshold: one
offline emission, `last_known_status` cleared, the counter reset to 0. -/
theorem handle_offline_emit (s : TrackerState) (streamer_name : String)
    (hlive : s.last_known_status streamer_name = true)
    (hactive : (s.active_downloads streamer_name || s.active_clips streamer_name) = true)
    (hge : s.offline_confirmations streamer_name + 1 ≥ OFFLINE_CONFIRMATIONS_NEEDED) :
    handle_status_update s streamer_name false =
      ({ s with
          last_known_status := Function.update s.last_known_status streamer_name false,
          offline_confirmations := Function.update s.offline_confirmations streamer_name 0 },
       [(streamer_name, false)]) := by
  simp only [handle_status_update, hlive, hactive, Bool.false_eq_true, if_false, if_true,
    Bool.true_and]
  rw [if_pos hge]
  simp [Function.update_idem]

/-- C1: with `lastKnownLive = true`, an active download or clip session, and a
reset confirmation counter, fewer than 3 consecutive offline probe results
emit nothing, while the 3rd emits exactly one offline transition, sets
`last_known_status` to false and resets the counter to 0. -/
theorem offline_confirmation (s : TrackerState) (streamer_name : String)
    (hlive : s.last_known_status streamer_name = true)
    (hactive : (s.active_downloads streamer_name || s.active_clips streamer_name) = true)
    (hcount : s.offline_confirmations streamer_name = 0) :
    (∀ M < OFFLINE_CONFIRMATIONS_NEEDED,
      (processOfflines streamer_name M s).2 = []) ∧
    (processOfflines streamer_name OFFLINE_CONFIRMATIONS_NEEDED s).2 =
      [(streamer_name, false)] ∧
    (processOfflines streamer_name OFFLINE_CONFIRMATIONS_NEEDED s).1.last_known_status
      streamer_name = false ∧
    (processOfflines streamer_name OFFLINE_CONFIRMATIONS_NEEDED s).1.offline_confirmations
      streamer_name = 0 := by
  have h1 := handle_offline_noemit s streamer_name hlive hactive
    (by rw [hcount]; simp [OFFLINE_CONFIRMATIONS_NEEDED])
  set s1 : TrackerState :=
    { s with
        offline_confirmations := Function.update s.offline_confirmations streamer_name
          (s.offline_confirmations streamer_name + 1) } with hs1
  have h1live : s1.last_known_status streamer_name = true := hlive
  have h1active : (s1.active_downloads streamer_name || s1.active_clips streamer_name) = true :=
    hactive
  have h1count : s1.offline_confirmations streamer_name = 1 := by
    rw [hs1]
    simp [Function.update_same, hcount]
  have h2 := handle_offline_noemit s1 streamer_name h1live h1active
    (by rw [h1count]; simp [OFFLINE_CONFIRMATIONS_NEEDED])
  set s2 : TrackerState :=
    { s1 with
        offline_confirmations := Function.update s1.offline_confirmations streamer_name
          (s1.offline_confirmations streamer_name + 1) } with hs2
  have h2live : s2.last_known_status streamer_name = true := h1live
  have h2active : (s2.active_downloads streamer_name || s2.active_clips streamer_name) = true :=
    h1active
  have h2count : s2.offline_confirmations streamer_name = 2 := by
    rw [hs2]
    simp [Function.update_same, h1count, hcount]
  have h3 := handle_offline_emit s2 streamer_name h2live h2active
    (by rw [h2count]; simp [OFFLINE_CONFIRMATIONS_NEEDED])
  refine ⟨?_, ?_, ?_, ?_⟩
  · intro M hM
    simp only [OFFLINE_CONFIRMATIONS_NEEDED] at hM
    interval_cases M
    · rfl
    · simp [processOfflines, h1]
    · simp [processOfflines, h1, h2]
  · simp [OFFLINE_CONFIRMATIONS_NEEDED, processOfflines, h1, h2, h3]
  · simp [OFFLINE_CONFIRMATIONS_NEEDED, processOfflines, h1, h2, h3, Function.update_same]
  · simp [OFFLINE_CONFIRMATIONS_NEEDED, processOfflines, h1, h2, h3, Function.update_same]

/-- Witness for C1 at a concrete tracker state with one live, downloading
channel and counter 0. -/
theorem offline_confirmation_witness :
    (processOfflines "chan" 2
      ⟨fun _ => true, fun _ => 0, fun _ => true, fun _ => false⟩).2 = [] ∧
    (processOfflines "chan" 3
      ⟨fun _ => true, fun _ => 0, fun _ => true, fun _ => false⟩).2 = [("chan", false)] := by
  have h := offline_confirmation
    ⟨fun _ => true, fun _ => 0, fun _ => true, fun _ => false⟩ "chan" rfl rfl rfl
  exact ⟨h.1 2 (by decide), h.2.1⟩

/-- Folding completion events over a map leaves indices that never complete
untouched. -/
theorem foldl_update_notMem (events : List (ℕ × String)) (m : ℕ → Option String)
    (i : ℕ) (h : i ∉ events.map Prod.fst) :
    (events.foldl recordCompletion m) i = m i := by
  induction events generalizing m with
  | nil => rfl
  | cons x rest ih =>
      simp only [List.map_cons, List.mem_cons, not_or] at h
      rw [List.foldl_cons, ih _ h.2]
      exact Function.update_noteq h.1 _ _

/-- With distinct completion indices, the map holds each completed segment's
stored path. -/
theorem foldl_update_mem (events : List (ℕ × String)) (m : ℕ → Option String)
    (i : ℕ) (p : String) (hnd : (events.map Prod.fst).Nodup)
    (hmem : (i, p) ∈ events) :
    (events.foldl recordCompletion m) i = some p := by
  induction events generalizing m with
  | nil => simp at hmem
  | cons x rest ih =>
      simp only [List.map_cons, List.nodup_cons] at hnd
      rcases List.mem_cons.mp hmem with hx | hrest
      · subst hx
        rw [List.foldl_cons, foldl_update_notMem rest _ i (by simpa using hnd.1)]
        exact Function.update_same _ _ _
      · rw [List.foldl_cons]
        exact ih _ hnd.2 hrest

/-- With distinct completion indices, the completed-segments map depends only
on the set of completion events, not on their order. -/
theorem buildCompleted_perm (e₁ e₂ : List (ℕ × String)) (hperm : List.Perm e₁ e₂)
    (hnd : (e₁.map Prod.fst).Nodup) : buildCompleted e₁ = buildCompleted e₂ := by
  have hnd₂ : (e₂.map Prod.fst).Nodup := ((hperm.map Prod.fst).nodup_iff).mp hnd
  funext i
  by_cases hi : i ∈ e₁.map Prod.fst
  · obtain ⟨x, hxmem, hx⟩ := List.mem_map.mp hi
    obtain ⟨i', p⟩ := x
    cases hx
    rw [buildCompleted, buildCompleted, foldl_update_mem e₁ _ _ p hnd hxmem,
      foldl_update_mem e₂ _ _ p hnd₂ (hperm.subset hxmem)]
  · rw [buildCompleted, buildCompleted, foldl_update_notMem e₁ _ _ hi,
      foldl_update_notMem e₂ _ _ (fun hc => hi ((hperm.map Prod.fst).mem_iff.mpr hc))]

/-- `filterMap` keeps exactly the positions where the function is `some`. -/
theorem filterMap_eq_filter_isSome {α β : Type} (f : α → Option β) (l : List α) :
    l.filterMap f = (l.filter (fun a => (f a).isSome)).filterMap f := by
  induction l with
  | nil => rfl
  | cons x rest ih =>
      cases hx : f x with
      | none => simp [List.filterMap_cons, List.filter_cons, hx, ih]
      | some b => simp [List.filterMap_cons, List.filter_cons, hx, ih]

/-- C5: the concat manifest lists completed segments in strictly increasing
manifest-index order, for every order in which the parallel workers completed
them: permuting the completion events leaves the manifest unchanged, the
retained indices are strictly increasing, indices absent from the completed
map are skipped without disturbing the rest, and each completed index maps to
the path its worker stored. -/
theorem concat_restores_index_order (total : ℕ) (e₁ e₂ : List (ℕ × String))
    (hperm : List.Perm e₁ e₂) (hnd : (e₁.map Prod.fst).Nodup) :
    concatFilesOf total (buildCompleted e₁) = concatFilesOf total (buildCompleted e₂) ∧
    List.Pairwise (· < ·)
      ((List.range total).filter (fun i => (buildCompleted e₁ i).isSome)) ∧
    concatFilesOf total (buildCompleted e₁) =
      ((List.range total).filter (fun i => (buildCompleted e₁ i).isSome)).filterMap
        (buildCompleted e₁) ∧
    (∀ i p, (i, p) ∈ e₁ → buildCompleted e₁ i = some p) := by
  refine ⟨?_, ?_, ?_, ?_⟩
  · rw [buildCompleted_perm e₁ e₂ hperm hnd]
  · exact (List.pairwise_lt_range total).filter _
  · exact filterMap_eq_filter_isSome _ _
  · intro i p hmem
    exact foldl_update_mem e₁ _ i p hnd hmem

/-- Witness for C5: two completion orders of the events
`{0 ↦ "a.ts", 1 ↦ "b.ts"}` over a 3-segment manifest. -/
theorem concat_restores_index_order_witness :
    concatFilesOf 3 (buildCompleted [(1, "b.ts"), (0, "a.ts")]) =
      concatFilesOf 3 (buildCompleted [(0, "a.ts"), (1, "b.ts")]) ∧
    buildCompleted [(1, "b.ts"), (0, "a.ts")] 0 = some "a.ts" := by
  have h := concat_restores_index_order 3 [(1, "b.ts"), (0, "a.ts")]
    [(0, "a.ts"), (1, "b.ts")] (List.Perm.swap _ _ _) (by simp)
  exact ⟨h.1, h.2.2.2 0 "a.ts" (by simp)⟩

theorem processSegment_total (ok : ℕ → Bool) (st : JobState) (x : ℕ) :
    (processSegment ok st x).total_segments = st.total_segments := by
  by_cases hx : ok x <;>
    simp [processSegment, download_segment_ok, download_segment_fail, hx]

theorem processSegment_completed (ok : ℕ → Bool) (st : JobState) (x i : ℕ) :
    (processSegment ok st x).completed_segments i =
      if i = x ∧ ok x then some (segPath x) else st.completed_segments i := by
  by_cases hx : ok x <;> by_cases hix : i = x <;>
    simp [processSegment, download_segment_ok, download_segment_fail, hx, hix,
      Function.update]

theorem processSegment_failed (ok : ℕ → Bool) (st : JobState) (x : ℕ) :
    (processSegment ok st x).failed_segments =
      if ok x then st.failed_segments else insert x st.failed_segments := by
  by_cases hx : ok x <;>
    simp [processSegment, download_segment_ok, download_segment_fail, hx]

theorem processSegment_downloaded (ok : ℕ → Bool) (st : JobState) (x : ℕ) :
    (processSegment ok st x).downloaded_segments =
      if ok x then st.downloaded_segments + 1 else st.downloaded_segments := by
  by_cases hx : ok x <;>
    simp [processSegment, download_segment_ok, download_segment_fail, hx]

/-- Characterization of a pass fetching the indices of `l` over a state. -/
theorem foldl_processSegment (ok : ℕ → Bool) (l : List ℕ) (st : JobState) :
    (l.foldl (processSegment ok) st).total_segments = st.total_segments ∧
    (∀ i, (l.foldl (processSegment ok) st).completed_segments i =
      if i ∈ l ∧ ok i then some (segPath i) else st.completed_segments i) ∧
    (l.foldl (processSegment ok) st).failed_segments =
      st.failed_segments ∪ (l.filter (fun i => ok i = false)).toFinset ∧
    (l.foldl (processSegment ok) st).downloaded_segments =
      st.downloaded_segments + (l.filter (fun i => ok i)).length := by
  induction l generalizing st with
  | nil => simp
  | cons x rest ih =>
      obtain ⟨iht, ihc, ihf, ihd⟩ := ih (processSegment ok st x)
      rw [List.foldl_cons]
      refine ⟨?_, ?_, ?_, ?_⟩
      · rw [iht, processSegment_total]
      · intro i
        rw [ihc i, processSegment_completed]
        by_cases hoki : ok i <;> by_cases hix : i = x <;> by_cases hmem : i ∈ rest
        · subst hix
          simp [hoki, hmem]
        · subst hix
          simp [hoki, hmem]
        · simp [hoki, hmem, hix]
        · simp [hoki, hmem, hix]
        · subst hix
          simp [hoki, hmem]
        · subst hix
          simp [hoki, hmem]
        · simp [hoki, hmem, hix]
        · simp [hoki, hmem, hix]
      · rw [ihf, processSegment_failed]
        by_cases hx : ok x
        · simp [List.filter_cons, hx]
        · simp [List.filter_cons, hx, Finset.insert_union, Finset.union_insert]
      · rw [ihd, processSegment_downloaded]
        by_cases hx : ok x
        · simp only [List.filter_cons, hx, if_true, List.length_cons]
          omega
        · simp [List.filter_cons, hx]

/-- The state after the first pass of `run`. -/
theorem initialPass_spec (ok : ℕ → Bool) (total : ℕ) :
    (initialPass ok total).total_segments = total ∧
    (∀ i, (initialPass ok total).completed_segments i =
      if i < total ∧ ok i then some (segPath i) else none) ∧
    (initialPass ok total).failed_segments =
      ((List.range total).filter (fun i => ok i = false)).toFinset ∧
    (initialPass ok total).downloaded_segments =
      ((List.range total).filter (fun i => ok i)).length := by
  obtain ⟨ht, hc, hf, hd⟩ := foldl_processSegment ok (List.range total) (initState total)
  refine ⟨by simpa [initState] using ht, ?_, by simpa [initState] using hf,
    by simpa [initState] using hd⟩
  intro i
  rw [initialPass, hc i]
  simp [initState, List.mem_range]

/-- A retry round over a failed set on which every fetch fails again is a
no-op. -/
theorem retryRound_stable (ok : ℕ → Bool) (st : JobState)
    (h : ∀ i ∈ st.failed_segments, ok i = false) : retryRound ok st = st := by
  obtain ⟨ht, hc, hf, hd⟩ := foldl_processSegment ok (st.failed_segments.sort (· ≤ ·))
    { st with failed_segments := ∅ }
  rw [retryRound]
  ext1
  · rw [ht]
  · funext i
    rw [hc i]
    rcases Decidable.em (i ∈ st.failed_segments.sort (· ≤ ·) ∧ ok i) with hcond | hcond
    · exact absurd hcond.2 (by simp [h i ((Finset.mem_sort _).mp hcond.1)])
    · rw [if_neg hcond]
  · rw [hf]
    have : (st.failed_segments.sort (· ≤ ·)).filter (fun i => ok i = false) =
        st.failed_segments.sort (· ≤ ·) := by
      apply List.filter_eq_self.mpr
      intro a ha
      simp [h a ((Finset.mem_sort _).mp ha)]
    rw [this]
    simp [Finset.sort_toFinset]
  · rw [hd]
    have : (st.failed_segments.sort (· ≤ ·)).filter (fun i => ok i) = [] := by
      apply List.filter_eq_nil_iff.mpr
      intro a ha
      simp [h a ((Finset.mem_sort _).mp ha)]
    simp [this]

/-- The retry loop over persistently failing segments leaves the state
unchanged, whatever the flags. -/
theorem retryLoop_stable (ok : ℕ → Bool) (should_stop should_abort : Bool)
    (fuel : ℕ) (st : JobState)
    (h : ∀ i ∈ st.failed_segments, ok i = false) :
    retryLoop ok should_stop should_abort fuel st = st := by
  induction fuel with
  | zero => rfl
  | succ n ih =>
      rw [retryLoop]
      by_cases hcond : st.failed_segments ≠ ∅ ∧ should_stop = false ∧ should_abort = false
      · rw [if_pos hcond, retryRound_stable ok st h, ih]
      · rw [if_neg hcond]

/-- Evaluating the concat manifest from a completed-segments characterization. -/
theorem filterMap_completed (ok : ℕ → Bool) (total : ℕ)
    (completed : ℕ → Option String) (l : List ℕ) (hl : ∀ i ∈ l, i < total)
    (hc : ∀ i, completed i = if i < total ∧ ok i then some (segPath i) else none) :
    l.filterMap completed = (l.filter (fun i => ok i)).map segPath := by
  induction l with
  | nil => rfl
  | cons x rest ih =>
      have hx : x < total := hl x (List.mem_cons_self x rest)
      have hrest : ∀ i ∈ rest, i < total := fun i hi => hl i (List.mem_cons_of_mem x hi)
      by_cases hok : ok x
      · rw [List.filterMap_cons, hc x, if_pos ⟨hx, hok⟩]
        simp only [List.filter_cons, hok, if_true, List.map_cons]
        rw [ih hrest]
      · rw [List.filterMap_cons, hc x, if_neg (by simp [hok])]
        simp only [List.filter_cons, hok, Bool.false_eq_true, if_false]
        exact ih hrest

/-- `finishJob` after the first pass, with neither stop nor abort requested
and a succeeding external concat, on a manifest with at least one fetchable
segment. -/
theorem finishJob_initialPass (ok : ℕ → Bool) (total : ℕ) (j : ℕ)
    (hj : j < total) (hokj : ok j = true) :
    finishJob ok false false true (initialPass ok total) =
      { success := true,
        msg := if ((List.range total).filter (fun i => ok i = false)) = [] then
            Msg.completedSuccess
          else Msg.completedWithFailures
            (((List.range total).filter (fun i => ok i = false)).length),
        outputProduced := true, tempDirRemoved := true,
        concatList := ((List.range total).filter (fun i => ok i)).map segPath } := by
  obtain ⟨ht, hc, hf, hd⟩ := initialPass_spec ok total
  have hfail : ∀ i ∈ (initialPass ok total).failed_segments, ok i = false := by
    intro i hi
    rw [hf] at hi
    simpa using (List.mem_filter.mp (List.mem_toFinset.mp hi)).2
  have hloop := retryLoop_stable ok false false 3 (initialPass ok total) hfail
  have hconcat : concatFiles (initialPass ok total) =
      ((List.range total).filter (fun i => ok i)).map segPath := by
    rw [concatFiles, concatFilesOf, ht]
    exact filterMap_completed ok total _ _ (fun i hi => List.mem_range.mp hi) hc
  have hne : concatFiles (initialPass ok total) ≠ [] := by
    rw [hconcat]
    intro hnil
    have hmem : j ∈ (List.range total).filter (fun i => ok i) :=
      List.mem_filter.mpr ⟨List.mem_range.mpr hj, by simp [hokj]⟩
    rw [List.map_eq_nil_iff] at hnil
    rw [hnil] at hmem
    simp at hmem
  have hcs : concatenate_segments (initialPass ok total) true = true := by
    rw [concatenate_segments, if_neg hne]
  have hstep : finishJob ok false false true (initialPass ok total) =
      if concatenate_segments (retryLoop ok false false 3 (initialPass ok total)) true then
        { success := true,
          msg := if (retryLoop ok false false 3 (initialPass ok total)).failed_segments ≠ ∅ then
              Msg.completedWithFailures
                (retryLoop ok false false 3 (initialPass ok total)).failed_segments.card
            else Msg.completedSuccess,
          outputProduced := true, tempDirRemoved := true,
          concatList := concatFiles (retryLoop ok false false 3 (initialPass ok total)) }
      else
        { success := false, msg := Msg.concatFailed, outputProduced := false,
          tempDirRemoved := true,
          concatList := concatFiles (retryLoop ok false false 3 (initialPass ok total)) } := rfl
  rw [hstep, hloop, hcs, if_pos rfl, hconcat, hf]
  congr 1
  by_cases hempty : ((List.range total).filter (fun i => ok i = false)) = []
  · rw [hempty, if_pos rfl]
    simp
  · have hfne : ((List.range total).filter (fun i => ok i = false)).toFinset ≠ ∅ := by
      intro h0
      exact hempty ((List.toFinset_eq_empty_iff _).mp h0)
    rw [if_neg hempty, if_pos hfne]
    congr 1
    exact List.toFinset_card_of_nodup (List.Nodup.filter _ (List.nodup_range total))

/-- C4: when exactly the indices failing every fetch attempt (a nonempty
proper subset, here witnessed by `i`) exhaust the retry budget and the rest
(witnessed by `j`) succeed, with no stop or abort, the job finishes with
success, the message carries the count of failed segments, and the output is
concatenated from the successful segments in index order. -/
theorem degraded_download_finishes (urls : List String) (durs : List ℚ)
    (ok : ℕ → Bool) (i j : ℕ) (hi : i < urls.length) (hoki : ok i = false)
    (hj : j < urls.length) (hokj : ok j = true) :
    runJob urls durs none none ok true =
      { success := true,
        msg := Msg.completedWithFailures
          (((List.range urls.length).filter (fun k => ok k = false)).length),
        outputProduced := true, tempDirRemoved := true,
        concatList := ((List.range urls.length).filter (fun k => ok k)).map segPath } := by
  have hne : urls ≠ [] := by
    intro h
    rw [h] at hj
    simp at hj
  have htotal : ¬(urls.length = 0) := by
    intro h
    omega
  simp only [runJob, hne, htotal, if_false]
  rw [finishJob_initialPass ok urls.length j hj hokj]
  have hmem : i ∈ (List.range urls.length).filter (fun k => ok k = false) :=
    List.mem_filter.mpr ⟨List.mem_range.mpr hi, by simp [hoki]⟩
  rw [if_neg (List.ne_nil_of_mem hmem)]

/-- Witness for C4: a 2-segment manifest where segment 0 fails every attempt
and segment 1 succeeds. -/
theorem degraded_download_finishes_witness :
    runJob ["seg0.ts", "seg1.ts"] [] none none (fun k => decide (k = 1)) true =
      { success := true, msg := Msg.completedWithFailures 1, outputProduced := true,
        tempDirRemoved := true, concatList := [segPath 1] } := by
  have h := degraded_download_finishes ["seg0.ts", "seg1.ts"] []
    (fun k => decide (k = 1)) 0 1 (by decide) (by decide) (by decide) (by decide)
  rw [h]
  norm_num [List.range_succ]

/-- C6: requesting abort on an in-flight job (any mid-flight state) yields a
failed outcome with the explicit abort message, no output file and the temp
directory removed; requesting stop on a mid-flight state with at least one
completed segment (and a succeeding external concat) concatenates what
completed so far and reports the partial-save message carrying the
downloaded/total ratio. -/
theorem abort_vs_stop (st : JobState) (ok : ℕ → Bool) (ffmpegOk : Bool)
    (i : ℕ) (hi : i < st.total_segments)
    (hc : st.completed_segments i ≠ none) :
    finishJob ok true true ffmpegOk st =
      { success := false, msg := Msg.abortedByUser, outputProduced := false,
        tempDirRemoved := true, concatList := [] } ∧
    concatFiles st ≠ [] ∧
    finishJob ok true false true st =
      { success := true,
        msg := Msg.partialSaved st.downloaded_segments st.total_segments,
        outputProduced := true, tempDirRemoved := true,
        concatList := concatFiles st } := by
  have hne : concatFiles st ≠ [] := by
    obtain ⟨v, hv⟩ := Option.ne_none_iff_exists'.mp hc
    have hmem : v ∈ concatFiles st := by
      rw [concatFiles, concatFilesOf]
      exact List.mem_filterMap.mpr ⟨i, List.mem_range.mpr hi, hv⟩
    exact List.ne_nil_of_mem hmem
  refine ⟨rfl, hne, ?_⟩
  have hstop : retryLoop ok true false 3 st = st := by
    rw [retryLoop, if_neg (by simp)]
  have hcs : concatenate_segments st true = true := by
    rw [concatenate_segments, if_neg hne]
  have hstep : finishJob ok true false true st =
      { success := true,
        msg := Msg.partialSaved (retryLoop ok true false 3 st).downloaded_segments
          (retryLoop ok true false 3 st).total_segments,
        outputProduced := concatenate_segments (retryLoop ok true false 3 st) true,
        tempDirRemoved := true,
        concatList := concatFiles (retryLoop ok true false 3 st) } := rfl
  rw [hstep, hstop, hcs]

/-- Witness for C6: a 1-segment job whose only segment already completed. -/
theorem abort_vs_stop_witness :
    finishJob (fun _ => true) true true false
      ⟨1, fun _ => some "segment_000000.ts", ∅, 1⟩ =
      { success := false, msg := Msg.abortedByUser, outputProduced := false,
        tempDirRemoved := true, concatList := [] } ∧
    finishJob (fun _ => true) true false true
      ⟨1, fun _ => some "segment_000000.ts", ∅, 1⟩ =
      { success := true, msg := Msg.partialSaved 1 1, outputProduced := true,
        tempDirRemoved := true,
        concatList := concatFiles ⟨1, fun _ => some "segment_000000.ts", ∅, 1⟩ } := by
  have h := abort_vs_stop ⟨1, fun _ => some "segment_000000.ts", ∅, 1⟩
    (fun _ => true) false 0 (by decide) (by simp)
  exact ⟨h.1, h.2.2⟩

/-- C2 (code bug): for a manifest whose total duration is 20s and a trim
window starting at 20s (≥ the total), `trim_segments` returns the FULL
segment list — the start-index loop never breaks, so `start_idx` keeps its
initial value 0 — and the job proceeds to download every segment and finish
successfully instead of failing with the no-segments-in-range reason. -/
theorem trim_out_of_range_downloads_everything :
    ([10, 10] : List ℚ).sum ≤ 20 ∧
    trim_segments ["u0", "u1"] [10, 10] 20 40 = (["u0", "u1"], [10, 10]) ∧
    runJob ["u0", "u1"] [10, 10] (some 20) none (fun _ => true) true =
      { success := true, msg := Msg.completedSuccess, outputProduced := true,
        tempDirRemoved := true, concatList := [segPath 0, segPath 1] } := by
  refine ⟨by norm_num, by norm_num [trim_segments, trimStartIdxAux, trimEndIdxAux], ?_⟩
  have hrun : runJob ["u0", "u1"] [10, 10] (some 20) none (fun _ => true) true =
      finishJob (fun _ => true) false false true (initialPass (fun _ => true) 2) := by
    simp only [runJob]
    norm_num [trim_segments, trimStartIdxAux, trimEndIdxAux]
    intro h
    simp at h
  rw [hrun, finishJob_initialPass (fun _ => true) 2 0 (by norm_num) rfl]
  norm_num [List.range_succ]

/-- C3 counterexample: on the 10×10s manifest with requested window
[25, 65], the code returns the five segments with indices 2..6 (slice
`[2:7]`), not the four segments of the claimed half-open range [2, 6). -/
theorem trim_scenario_claim_false :
    (trim_segments ["s0", "s1", "s2", "s3", "s4", "s5", "s6", "s7", "s8", "s9"]
      [10, 10, 10, 10, 10, 10, 10, 10, 10, 10] 25 65).1 =
      ["s2", "s3", "s4", "s5", "s6"] ∧
    (["s2", "s3", "s4", "s5", "s6"] : List String) ≠ ["s2", "s3", "s4", "s5"] := by
  constructor
  · norm_num [trim_segments, trimStartIdxAux, trimEndIdxAux]
  · simp

/-- C3 amended: the scenario trims to the half-open index range [2, 7) — the
3rd through 7th segments — because the end loop stops at the first index
whose cumulative start has reached the requested end, so the segment
containing the end time is included. -/
theorem trim_scenario_includes_end_segment :
    trim_segments ["s0", "s1", "s2", "s3", "s4", "s5", "s6", "s7", "s8", "s9"]
      [10, 10, 10, 10, 10, 10, 10, 10, 10, 10] 25 65 =
      (["s2", "s3", "s4", "s5", "s6"], [10, 10, 10, 10, 10]) := by
  norm_num [trim_segments, trimStartIdxAux, trimEndIdxAux]

/-- The pattern `'-unmuted.ts'` has no nontrivial border: no proper nonempty
suffix of it is also a prefix of it. -/
theorem unmuted_no_border (k : ℕ) (h1 : 0 < k) (h2 : k < 11) :
    unmutedSuffix.drop k ≠ unmutedSuffix.take (11 - k) := by
  interval_cases k <;> decide

/-- Two occurrences of `'-unmuted.ts'` cannot overlap: a string of the form
`'-unmuted.ts' ++ t` with `0 < |t| < 11` cannot also end in `'-unmuted.ts'`. -/
theorem unmuted_overlap_false (t : List Char) (h0 : 0 < t.length)
    (h1 : t.length < 11) (hsuf : unmutedSuffix <:+ (unmutedSuffix ++ t)) :
    False := by
  have hplen : unmutedSuffix.length = 11 := rfl
  have heq := List.suffix_iff_eq_drop.mp hsuf
  rw [List.length_append, hplen] at heq
  have hn : 11 + t.length - 11 = t.length := by omega
  rw [hn, List.drop_append_eq_append_drop] at heq
  rw [hplen] at heq
  have hz : t.length - 11 = 0 := by omega
  rw [hz, List.drop_zero] at heq
  -- heq : unmutedSuffix = unmutedSuffix.drop t.length ++ t
  have htake := congrArg (List.take (11 - t.length)) heq
  rw [List.take_left' (by rw [List.length_drop, hplen])] at htake
  exact unmuted_no_border t.length h0 h1 htake.symm

/-- Replacing every occurrence of `'-unmuted.ts'` in a string that ends in
`'-unmuted.ts'` yields a string ending in `'-muted.ts'` (strong induction on
the string length). -/
theorem replaceUnmuted_suffix_aux (n : ℕ) : ∀ s : List Char, s.length ≤ n →
    unmutedSuffix <:+ s → mutedSuffix <:+ replaceUnmuted s := by
  induction n with
  | zero =>
      intro s hlen hsuf
      have h11 := hsuf.length_le
      rw [(show unmutedSuffix.length = 11 from rfl)] at h11
      omega
  | succ n ih =>
      intro s hlen hsuf
      match s with
      | [] => exact absurd (List.suffix_nil.mp hsuf) (by decide)
      | c :: rest =>
        by_cases hpre : unmutedSuffix <+: (c :: rest)
        · obtain ⟨t, ht⟩ := hpre
          have hrepl : replaceUnmuted (c :: rest) =
              mutedSuffix ++ replaceUnmuted (rest.drop 10) := by
            simp only [replaceUnmuted]
            rw [if_pos ⟨t, ht⟩]
          have ht10 : rest.drop 10 = t := by
            have h11 : (unmutedSuffix ++ t).drop 11 = t := by
              have hd := List.drop_left unmutedSuffix t
              rwa [(show unmutedSuffix.length = 11 from rfl)] at hd
            rw [ht] at h11
            simpa using h11
          rcases Nat.eq_zero_or_pos t.length with ht0 | htpos
          · rw [hrepl, ht10, List.eq_nil_of_length_eq_zero ht0]
            simp [replaceUnmuted]
          · rcases Nat.lt_or_ge t.length 11 with htlt | htge
            · rw [← ht] at hsuf
              exact absurd (unmuted_overlap_false t htpos htlt hsuf) (fun h => h)
            · rw [← ht] at hsuf
              have heq := List.suffix_iff_eq_drop.mp hsuf
              rw [List.length_append, (show unmutedSuffix.length = 11 from rfl)] at heq
              have hn : 11 + t.length - 11 = t.length := by omega
              have hdropnil : unmutedSuffix.drop t.length = [] :=
                List.drop_eq_nil_of_le
                  (by rw [(show unmutedSuffix.length = 11 from rfl)]; omega)
              rw [hn, List.drop_append_eq_append_drop, hdropnil, List.nil_append] at heq
              have hsuft : unmutedSuffix <:+ t := heq ▸ List.drop_suffix _ t
              have hlent : t.length ≤ n := by
                have hl := congrArg List.length ht
                simp only [List.length_append, List.length_cons,
                  (show unmutedSuffix.length = 11 from rfl)] at hl
                simp only [List.length_cons] at hlen
                omega
              have hq := ih t hlent hsuft
              rw [hrepl, ht10]
              exact hq.trans (List.suffix_append _ _)
        · have hrepl : replaceUnmuted (c :: rest) = c :: replaceUnmuted rest := by
            simp only [replaceUnmuted]
            rw [if_neg hpre]
          have hlenge : 11 ≤ (c :: rest).length := by
            have h := hsuf.length_le
            rwa [(show unmutedSuffix.length = 11 from rfl)] at h
          rcases Nat.eq_or_lt_of_le hlenge with h11 | h12
          · apply absurd _ hpre
            have heqs : unmutedSuffix = c :: rest :=
              hsuf.eq_of_length ((show unmutedSuffix.length = 11 from rfl).trans h11)
            rw [heqs]
          · have heq := List.suffix_iff_eq_drop.mp hsuf
            rw [(show unmutedSuffix.length = 11 from rfl)] at heq
            have hm : (c :: rest).length - 11 = (rest.length - 11) + 1 := by
              simp only [List.length_cons] at h12 ⊢
              omega
            rw [hm, List.drop_succ_cons] at heq
            have hsufr : unmutedSuffix <:+ rest := heq ▸ List.drop_suffix _ rest
            have hrestlen : rest.length ≤ n := by
              simp only [List.length_cons] at hlen
              omega
            have hq := ih rest hrestlen hsufr
            rw [hrepl]
            exact hq.trans (List.suffix_cons c _)

/-- C7: `transform_url` rewrites every URL ending in `'-unmuted.ts'` into one
ending in `'-muted.ts'`, and returns every other URL completely unchanged. -/
theorem transform_url_spec (url : List Char) :
    (unmutedSuffix <:+ url → mutedSuffix <:+ transform_url url) ∧
    (¬ unmutedSuffix <:+ url → transform_url url = url) := by
  constructor
  · intro h
    rw [transform_url, if_pos h]
    exact replaceUnmuted_suffix_aux url.length url le_rfl h
  · intro h
    rw [transform_url, if_neg h]

/-- Witness for C7: one matching and one non-matching URL. -/
theorem transform_url_spec_witness :
    mutedSuffix <:+ transform_url ("seg-unmuted.ts".toList) ∧
    transform_url ("seg.ts".toList) = "seg.ts".toList :=
  ⟨(transform_url_spec ("seg-unmuted.ts".toList)).1 (by decide),
   (transform_url_spec ("seg.ts".toList)).2 (by decide)⟩

/-- Indices produced by `segPositions` are in range. -/
theorem segPositions_lt (lines : List (List Char)) (j : ℕ)
    (hj : j ∈ segPositions lines) : j < lines.length :=
  List.mem_range.mp (List.mem_filter.mp hj).1

/-- An `#EXTINF:` line is a comment line, not a segment line. -/
theorem extinf_not_segment (x : List Char) (h : extinfTag <+: pyStrip x) :
    isSegment x = false := by
  simp only [isSegment, decide_eq_false_iff_not]
  rintro ⟨hne, hnp⟩
  exact hnp (List.IsPrefix.trans (by decide) h)

/-- Appending one line shifts `specPending` by the new line's kind. -/
theorem specPending_append (pyFloat : List Char → Option ℚ)
    (l : List (List Char)) (x : List Char) :
    specPending pyFloat (l ++ [x]) =
      if isExtinf x then extinfDuration pyFloat (pyStrip x)
      else if isSegment x then none
      else specPending pyFloat l := by
  have hrev : (l ++ [x]).reverse = x :: l.reverse := by simp
  rw [specPending, hrev]
  by_cases hx : (isExtinf x || isSegment x) = true
  · rw [List.find?_cons]
    simp only [hx]
    show (if isExtinf x = true then extinfDuration pyFloat (pyStrip x) else none) = _
    by_cases hxe : isExtinf x = true
    · rw [if_pos hxe, if_pos hxe]
    · have hxs : isSegment x = true := by
        rcases Bool.or_eq_true_iff.mp hx with h | h
        · exact absurd h hxe
        · exact h
      rw [if_neg hxe, if_neg hxe, if_pos hxs]
  · have hx0 : (isExtinf x || isSegment x) = false := by simpa using hx
    have hxe : ¬isExtinf x = true := fun h => hx (by simp [h])
    have hxs : ¬isSegment x = true := fun h => hx (by simp [h])
    rw [List.find?_cons]
    simp only [hx0]
    rw [if_neg hxe, if_neg hxs]
    rfl

/-- Appending one line extends `segPositions` by its position iff it is a
segment line. -/
theorem segPositions_append (l : List (List Char)) (x : List Char) :
    segPositions (l ++ [x]) =
      segPositions l ++ (if isSegment x then [l.length] else []) := by
  rw [segPositions, segPositions]
  have hlen : (l ++ [x]).length = l.length + 1 := by simp
  rw [hlen, List.range_succ, List.filter_append]
  congr 1
  · apply List.filter_congr
    intro j hj
    rw [List.getD_append _ _ _ _ (List.mem_range.mp hj)]
  · have hget : (l ++ [x]).getD l.length [] = x := by
      rw [List.getD_append_right _ _ _ _ le_rfl]
      simp
    by_cases hxs : isSegment x
    · rw [if_pos hxs]
      simp [hget, hxs]
    · rw [if_neg hxs]
      simp only [Bool.not_eq_true] at hxs
      simp [hget, hxs]

/-- The duration recorded for an existing segment position is unaffected by a
line appended later. -/
theorem map_take_stable (pyFloat : List Char → Option ℚ)
    (l : List (List Char)) (x : List Char) :
    (segPositions l).map (fun j => (specPending pyFloat ((l ++ [x]).take j)).getD 0) =
      (segPositions l).map (fun j => (specPending pyFloat (l.take j)).getD 0) := by
  apply List.map_congr_left
  intro j hj
  rw [List.take_append_of_le_length (le_of_lt (segPositions_lt l j hj))]

/-- The URL recorded for an existing segment position is unaffected by a line
appended later. -/
theorem map_segUrl_stable (joinUrl : List Char → List Char)
    (l : List (List Char)) (x : List Char) :
    (segPositions l).map (segUrlAt joinUrl (l ++ [x])) =
      (segPositions l).map (segUrlAt joinUrl l) := by
  apply List.map_congr_left
  intro j hj
  rw [segUrlAt, segUrlAt, List.getD_append _ _ _ _ (segPositions_lt l j hj)]

/-- Invariant of the `parse_m3u8` line loop: after any number of lines, the
pending `duration` equals the nearest-preceding-relevant-line value, and the
output lists are exactly the per-segment-position duration and URL maps. -/
theorem parse_foldl_spec (pyFloat : List Char → Option ℚ)
    (joinUrl : List Char → List Char) (lines : List (List Char)) :
    (lines.foldl (parseLine pyFloat joinUrl) ⟨[], [], none⟩).duration =
      specPending pyFloat lines ∧
    (lines.foldl (parseLine pyFloat joinUrl) ⟨[], [], none⟩).segment_durations =
      (segPositions lines).map (fun j => (specPending pyFloat (lines.take j)).getD 0) ∧
    (lines.foldl (parseLine pyFloat joinUrl) ⟨[], [], none⟩).segment_urls =
      (segPositions lines).map (segUrlAt joinUrl lines) := by
  induction lines using List.reverseRecOn with
  | nil => exact ⟨rfl, rfl, rfl⟩
  | append_singleton l x ih =>
      obtain ⟨ihd, ihdur, ihurl⟩ := ih
      rw [List.foldl_append, List.foldl_cons, List.foldl_nil, specPending_append,
        segPositions_append, List.map_append, List.map_append, map_take_stable,
        map_segUrl_stable]
      have htake : (l ++ [x]).take l.length = l := List.take_left l [x]
      have hget : (l ++ [x]).getD l.length [] = x := by
        rw [List.getD_append_right _ _ _ _ le_rfl]
        simp
      by_cases hxe : extinfTag <+: pyStrip x
      · have hE : isExtinf x = true := by simp [isExtinf, hxe]
        have hS : isSegment x = false := extinf_not_segment x hxe
        rw [parseLine, if_pos hxe]
        refine ⟨by rw [if_pos hE], ?_, ?_⟩
        · show (List.foldl (parseLine pyFloat joinUrl) ⟨[], [], none⟩ l).segment_durations = _
          rw [ihdur, hS]
          simp
        · show (List.foldl (parseLine pyFloat joinUrl) ⟨[], [], none⟩ l).segment_urls = _
          rw [ihurl, hS]
          simp
      · by_cases hxs : pyStrip x ≠ [] ∧ ¬(['#'] <+: pyStrip x)
        · have hE : isExtinf x = false := by simp [isExtinf, hxe]
          have hS : isSegment x = true := by simp [isSegment, hxs]
          rw [parseLine, if_neg hxe, if_pos hxs]
          refine ⟨?_, ?_, ?_⟩
          · show (none : Option ℚ) = _
            rw [if_neg (show ¬(isExtinf x = true) by simp [hE]), if_pos hS]
          · show (List.foldl (parseLine pyFloat joinUrl) ⟨[], [], none⟩ l).segment_durations ++
                [((List.foldl (parseLine pyFloat joinUrl) ⟨[], [], none⟩ l).duration).getD 0] = _
            rw [ihdur, ihd, hS, if_pos rfl]
            simp only [List.map_cons, List.map_nil, htake]
          · show (List.foldl (parseLine pyFloat joinUrl) ⟨[], [], none⟩ l).segment_urls ++
                [transform_url (if ("http".toList) <+: pyStrip x then pyStrip x
                  else joinUrl (pyStrip x))] = _
            rw [ihurl, hS, if_pos rfl]
            simp only [List.map_cons, List.map_nil]
            rw [segUrlAt, hget]
        · have hE : isExtinf x = false := by simp [isExtinf, hxe]
          have hS : isSegment x = false := by
            simp only [isSegment, decide_eq_false_iff_not]
            exact hxs
          rw [parseLine, if_neg hxe, if_neg hxs]
          refine ⟨?_, ?_, ?_⟩
          · rw [if_neg (show ¬(isExtinf x = true) by simp [hE]),
              if_neg (show ¬(isSegment x = true) by simp [hS])]
            exact ihd
          · rw [ihdur, hS]
            simp
          · rw [ihurl, hS]
            simp

/-- C10: for every manifest, the URL and duration lists of `parse_m3u8` have
equal length; each segment's recorded duration is the value of the nearest
preceding `#EXTINF:` line not yet consumed by an earlier segment (0 when
there is none or its value cannot be parsed), and each URL is the
joined-and-normalized segment line. -/
theorem parse_m3u8_invariant (pyFloat : List Char → Option ℚ)
    (joinUrl : List Char → List Char) (lines : List (List Char)) :
    (parse_m3u8 pyFloat joinUrl lines).1.length =
      (parse_m3u8 pyFloat joinUrl lines).2.length ∧
    (parse_m3u8 pyFloat joinUrl lines).2 =
      (segPositions lines).map
        (fun j => (specPending pyFloat (lines.take j)).getD 0) ∧
    (parse_m3u8 pyFloat joinUrl lines).1 =
      (segPositions lines).map (segUrlAt joinUrl lines) := by
  obtain ⟨hd, hdur, hurl⟩ := parse_foldl_spec pyFloat joinUrl lines
  refine ⟨?_, hdur, hurl⟩
  rw [show (parse_m3u8 pyFloat joinUrl lines).1 =
      (lines.foldl (parseLine pyFloat joinUrl) ⟨[], [], none⟩).segment_urls from rfl,
    show (parse_m3u8 pyFloat joinUrl lines).2 =
      (lines.foldl (parseLine pyFloat joinUrl) ⟨[], [], none⟩).segment_durations from rfl,
    hdur, hurl]
  simp

end TwitchTools
